import Mathlib

/-!
Verification of the dialogue-orchestrator specification of the
`ai-accent-coach` application against its source (`src/App.js`, second
revision of the component, which is the one the specification's line
references point at).

Strings are modelled shallowly as `List Char`; JavaScript string
operations (`trim`, `split`, `startsWith`, template literals) become the
corresponding list functions.  The text chunker of `speakMessage`, the
message/prompt construction of `sendMessage`, the submission filter of
`sendPromptToGemini`, the response handling, the pronunciation-tips
handler, the feature initiations and the chunk-playback chain are each
embedded as executable Lean functions, and the React component's
event-driven behaviour as a small step machine over an `AppState` record
whose fields mirror the component's `useState` hooks.
-/

namespace AccentCoach

/-- Strings are modelled as lists of characters (one element per code point). -/
abbrev Str := List Char

/-- The JavaScript whitespace class: the characters matched by `\s` in a
JavaScript regular expression, which is also the set stripped by
`String.prototype.trim`. -/
def jsSpace (c : Char) : Bool :=
  c == ' ' || c == '\t' || c == '\n' || c == '\r' ||
  c.toNat == 11 || c.toNat == 12 || c.toNat == 160 || c.toNat == 5760 ||
  (8192 ≤ c.toNat && c.toNat ≤ 8202) ||
  c.toNat == 8232 || c.toNat == 8233 || c.toNat == 8239 || c.toNat == 8287 ||
  c.toNat == 12288 || c.toNat == 65279

/-- Removal of trailing whitespace (the right half of `String.prototype.trim`). -/
def rtrim (l : Str) : Str := (l.reverse.dropWhile jsSpace).reverse

/-- JavaScript `String.prototype.trim`: strip leading and trailing whitespace. -/
def trim (l : Str) : Str := rtrim (l.dropWhile jsSpace)

/-- Scanner mode for the regex split `text.split(/(?<=[.!?])\s+|\n+/)` used by
`speakMessage`: either inside a piece, inside a `(?<=[.!?])\s+` separator run,
or inside a `\n+` separator run. -/
inductive SMode
  | piece
  | sepA
  | sepB
deriving DecidableEq

/-- Character-by-character embedding of the JavaScript
`text.split(/(?<=[.!?])\s+|\n+/)` from `speakMessage`.  The first
alternative (a whitespace run preceded by `.`, `!` or `?`) is tried before
the second (a newline run), as in regex alternation; a separator at the end
of the input contributes a final empty piece, as `String.prototype.split`
does.  `prev` is the previously scanned character (for the lookbehind) and
`cur` the current piece accumulated in reverse. -/
def splitAux : Str → SMode → Char → Str → List Str
  | [], SMode.piece, _, cur => [cur.reverse]
  | [], _, _, _ => [[]]
  | c :: rest, SMode.piece, prev, cur =>
    if (prev = '.' ∨ prev = '!' ∨ prev = '?') ∧ jsSpace c then
      cur.reverse :: splitAux rest SMode.sepA c []
    else if c = '\n' then
      cur.reverse :: splitAux rest SMode.sepB c []
    else
      splitAux rest SMode.piece c (c :: cur)
  | c :: rest, SMode.sepA, _, cur =>
    if jsSpace c then splitAux rest SMode.sepA c cur
    else splitAux rest SMode.piece c [c]
  | c :: rest, SMode.sepB, _, cur =>
    if c = '\n' then splitAux rest SMode.sepB c cur
    else splitAux rest SMode.piece c [c]

/-- The `segments` array of `speakMessage`:
`text.split(/(?<=[.!?])\s+|\n+/).filter(s => s.trim().length > 0)`.
The initial `prev` is a space, which never satisfies the lookbehind, so
position 0 can never start an `(?<=[.!?])\s+` separator. -/
def segmentsRaw (text : Str) : List Str :=
  (splitAux text SMode.piece ' ' []).filter (fun s => 0 < (trim s).length)

/-- The greedy packing loop of `speakMessage`: segments are trimmed and
packed into `currentChunk` while
`(currentChunk + ' ' + segment).trim().length <= maxLen`; on overflow the
current chunk (if its trim is non-empty) is pushed and the overflowing
segment starts a new chunk; after the loop the final chunk is pushed if
non-empty. -/
def chunkLoop (maxLen : Nat) : List Str → Str → List Str → List Str
  | [], cur, acc => if trim cur = [] then acc else acc ++ [trim cur]
  | s :: rest, cur, acc =>
    let seg := trim s
    if seg.length = 0 then chunkLoop maxLen rest cur acc
    else if (trim (cur ++ ' ' :: seg)).length ≤ maxLen then
      chunkLoop maxLen rest (if cur = [] then seg else cur ++ ' ' :: seg) acc
    else if trim cur = [] then chunkLoop maxLen rest seg acc
    else chunkLoop maxLen rest seg (acc ++ [trim cur])

/-- The chunker of `speakMessage` ("Robust Chunking Logic"), parameterised by
the maximal utterance length. -/
def chunk (text : Str) (maxLen : Nat) : List Str :=
  chunkLoop maxLen (segmentsRaw text) [] []

/-- `const maxUtteranceLength = 160` in `speakMessage`. -/
def maxUtteranceLength : Nat := 160

/-- Concatenation of chunks with single spaces reinserted (used to state the
round-trip property of the chunker). -/
def spaceJoin : List Str → Str
  | [] => []
  | [c] => c
  | c :: cs => c ++ ' ' :: spaceJoin cs

/-- Helper for `words`: split into maximal whitespace-free runs; `cur` is the
current word accumulated in reverse. -/
def wordsAux : Str → Str → List Str
  | [], cur => if cur = [] then [] else [cur.reverse]
  | c :: rest, cur =>
    if jsSpace c then
      (if cur = [] then wordsAux rest [] else cur.reverse :: wordsAux rest [])
    else wordsAux rest (c :: cur)

/-- The word sequence of a text: its maximal whitespace-free runs, in order. -/
def words (l : Str) : List Str := wordsAux l []

/-- Concatenation of a list of lists (used for flattening word lists). -/
def flat {α : Type} : List (List α) → List α
  | [] => []
  | x :: xs => x ++ flat xs

/-- Turn role: `'user'` or `'model'`. -/
inductive Role
  | user
  | model
deriving DecidableEq

/-- A conversation turn: `{ role, text }`. -/
structure Turn where
  role : Role
  text : Str
deriving DecidableEq

/-- The feature the next user input parameterises
(`awaitingFeatureInput` is `'vocab'`, `'rephrase'` or `null`). -/
inductive Feature
  | vocab
  | rephrase
deriving DecidableEq

/-- The seeded greeting turn text. -/
def greetingText : Str :=
  "Hello! I am your AI British accent teacher. How may I assist you today in mastering the nuances of British English?".toList

/-- The transient listening placeholder text. -/
def listeningText : Str := "Listening...".toList

/-- The sparkle character used as the first character of every feature marker
(`msg.text.startsWith('✨')`). -/
def sparkleText : Str := "✨".toList

/-- The vocabulary feature-initiation marker turn text. -/
def vocabMarkerText : Str := "✨ I\u0027d like some British vocabulary/idioms.".toList

/-- The rephrase feature-initiation marker turn text. -/
def rephraseMarkerText : Str := "✨ I\u0027d like a sentence rephrased in British English.".toList

/-- The role-play feature-initiation marker turn text. -/
def rolePlayMarkerText : Str := "✨ Starting a new role-play scenario...".toList

/-- Prefix of the pronunciation-tips marker turn text (before the quoted user text). -/
def tipsMarkerPreText : Str := "✨ Requested pronunciation tips for: \"".toList

/-- A double-quote character (closing the quoted text of markers and prompts). -/
def quoteText : Str := "\"".toList

/-- The pronunciation-tips marker turn: the marker prefix, the quoted user
text, and a closing quote (the template literal of `getPronunciationTips`). -/
def tipsMarker (t : Str) : Str := tipsMarkerPreText ++ t ++ quoteText

/-- The model acknowledgement appended by the vocabulary branch of `sendMessage`. -/
def ackVocabText : Str :=
  "Thank you. Please wait a moment while I compile some suggestions for you.".toList

/-- The model acknowledgement appended by the rephrase branch of `sendMessage`. -/
def ackRephraseText : Str :=
  "Understood. Let me consider how to best rephrase that for a British context.".toList

/-- The model question spoken when the vocabulary feature is initiated. -/
def vocabAskText : Str :=
  "Excellent! Please tell me, what topic would you like vocabulary or idioms for? For example, you could say \"food,\" \"travel,\" or \"everyday life.\"".toList

/-- The model question spoken when the rephrase feature is initiated. -/
def rephraseAskText : Str :=
  "Certainly. Please provide the sentence you wish to rephrase. I will endeavour to make it sound more quintessentially British.".toList

/-- The vocabulary-instruction prompt template of `sendMessage`
(`The user is asking for ... topic: "${userMessageContent}". As a ...`). -/
def vocabPrompt (t : Str) : Str :=
  "The user is asking for British English vocabulary and idioms related to the topic: \"".toList
  ++ t ++
  "\". As a British BBC accent teacher, please provide a list of 5-7 relevant words or idioms with brief explanations/contexts.".toList

/-- The rephrase-instruction prompt template of `sendMessage`. -/
def rephrasePrompt (t : Str) : Str :=
  "The user wants to rephrase the sentence: \"".toList
  ++ t ++
  "\". As a British BBC accent teacher, please rephrase this sentence to sound more natural and idiomatic in British English. Offer one or two alternative phrasings.".toList

/-- The tips-instruction prompt template of `getPronunciationTips`. -/
def tipsPrompt (t : Str) : Str :=
  "The user just said: \"".toList
  ++ t ++
  "\". As a British BBC accent teacher, please provide specific, helpful pronunciation tips for improving the British English sound of that sentence. Focus on key words or common phonetic differences. Keep it concise and practical.".toList

/-- The fixed role-play instruction of `startRolePlay`. -/
def rolePlayPromptText : Str :=
  "As a British BBC accent teacher, please initiate a short, engaging role-play scenario for the user to practice their British English. Suggest a setting (e.g., a café, a train station, a British garden party) and start the conversation. Keep your initial prompt for the role-play short and set the scene clearly.".toList

/-- The fixed fallback apology of `sendPromptToGemini`. -/
def fallbackText : Str :=
  "I apologize, I couldn\u0027t generate a response at this moment. Please try again.".toList

/-- The default text used when the API error payload carries no truthy message. -/
def unknownApiErrorText : Str := "An unknown API error occurred.".toList

/-- Prefix of the model turn built from an API error payload. -/
def errorPreText : Str := "Error: ".toList

/-- The model turn appended when the API call throws (transport failure). -/
def transportText : Str :=
  "I\u0027m having trouble connecting right now. Please try again later.".toList

/-- The advisory error of the empty-submission rejection in `sendMessage`. -/
def emptyMsgErrorText : Str := "Please enter or speak a message to send.".toList

/-- The advisory error of `getPronunciationTips` when no prior user turn exists. -/
def tipsNeedErrorText : Str :=
  "Please speak or type a message first to get pronunciation tips.".toList

/-- The error surfaced in the `catch` branch of `sendPromptToGemini`. -/
def netErrorText : Str :=
  "Failed to get response from AI. Please check your network connection.".toList

/-- The error surfaced when `startListening` finds recognition unavailable or active. -/
def recBusyText : Str :=
  "Speech recognition is not available or already active.".toList

/-- The error surfaced by the recognition `onerror` handler (the event detail is
abstracted away). -/
def recErrorText : Str := "Speech recognition error".toList

/-- The error surfaced by the recognition `onend` handler when nothing was
recognised. -/
def noSpeechErrorText : Str :=
  "No speech was recognized. Please try speaking clearly.".toList

/-- The error surfaced by the synthesis `onerror` handler (the event detail is
abstracted away). -/
def synthErrorText : Str := "Speech synthesis error".toList

/-- The per-turn predicate of the submission filter in `sendPromptToGemini`:
`msg.text !== 'Listening...' && !msg.text.startsWith('✨') && msg.text !== ack₁
&& msg.text !== ack₂`. -/
def isMarkerFree (m : Turn) : Bool :=
  !(decide (m.text = listeningText)) && !(sparkleText.isPrefixOf m.text) &&
  !(decide (m.text = ackVocabText)) && !(decide (m.text = ackRephraseText))

/-- The `filteredConversation` of `sendPromptToGemini`: the submission snapshot
of the conversation log (the part placed between the persona instruction and
the current prompt). -/
def filteredConversation (conv : List Turn) : List Turn := conv.filter isMarkerFree

/-- The predicate of `getPronunciationTips` selecting a genuine user turn:
`msg.role === 'user' && msg.text !== 'Listening...' && !msg.text.startsWith('✨')`. -/
def isRealUserTurn (m : Turn) : Bool :=
  decide (m.role = Role.user) && !(decide (m.text = listeningText)) &&
  !(sparkleText.isPrefixOf m.text)

/-- The component state: one field per `useState` hook, plus three bookkeeping
flags for the pending asynchronous activities (an active recognition session,
an in-flight API call, and speech chunks scheduled but not yet started). -/
structure AppState where
  conversation : List Turn
  message : Str
  isListening : Bool
  isSpeaking : Bool
  isLoading : Bool
  error : Str
  awaitingFeatureInput : Option Feature
  recActive : Bool
  apiActive : Bool
  speakPending : Bool
deriving DecidableEq

/-- The synchronous effect of `speakMessage(text)`: stop current speech,
chunk the text, and (when there are chunks) schedule playback; `speaking`
itself only becomes true later, on the first chunk's `onstart` signal. -/
def speakMessageStep (s : AppState) (t : Str) : AppState :=
  let s0 := { s with isSpeaking := false }
  if (chunk t maxUtteranceLength).isEmpty then { s0 with isSpeaking := false }
  else { s0 with speakPending := true }

/-- The synchronous effect of `sendMessage(textToSend)` up to and including the
`setIsLoading(true)` at the top of `sendPromptToGemini`; the second component
is the prompt handed to the API (`none` when the submission is rejected).
Mirrors the source order: placeholder removal, trim, the empty/loading
rejection (with its conditional advisory error), then error reset, user-turn
append, input clearing, speech cancellation and the feature branches. -/
def sendMessageStep (s : AppState) (textToSend : Str) : AppState × Option Str :=
  let conv0 := s.conversation.filter (fun m => !(decide (m.text = listeningText)))
  let userMessageContent := trim textToSend
  if userMessageContent = [] ∨ s.isLoading then
    ({ s with
        conversation := conv0,
        error := if textToSend = s.message ∧ userMessageContent = [] then emptyMsgErrorText
                 else s.error }, none)
  else
    let s1 := { s with
                conversation := conv0 ++ [Turn.mk Role.user (userMessageContent)],
                error := [], message := [], isSpeaking := false }
    match s.awaitingFeatureInput with
    | some Feature.vocab =>
      ({ s1 with
          awaitingFeatureInput := none,
          conversation := s1.conversation ++ [Turn.mk Role.model (ackVocabText)],
          isLoading := true, apiActive := true }, some (vocabPrompt userMessageContent))
    | some Feature.rephrase =>
      ({ s1 with
          awaitingFeatureInput := none,
          conversation := s1.conversation ++ [Turn.mk Role.model (ackRephraseText)],
          isLoading := true, apiActive := true }, some (rephrasePrompt userMessageContent))
    | none => ({ s1 with isLoading := true, apiActive := true }, some userMessageContent)

/-- The synchronous effect of `getPronunciationTips`: clear the error, bail
out when busy or awaiting feature input, find the last genuine user turn
(rejecting with an advisory error when there is none), otherwise append the
marker turn and dispatch the tips prompt. -/
def getPronunciationTipsStep (s : AppState) : AppState × Option Str :=
  if s.isLoading ∨ s.isListening ∨ s.isSpeaking ∨ s.awaitingFeatureInput ≠ none then
    ({ s with error := [] }, none)
  else
    match (s.conversation.reverse).find? isRealUserTurn with
    | none => ({ s with error := tipsNeedErrorText }, none)
    | some u =>
      ({ s with
          error := [],
          conversation := s.conversation ++ [Turn.mk Role.user (tipsMarker u.text)],
          isLoading := true, apiActive := true }, some (tipsPrompt u.text))

/-- The synchronous effect of `getBritishVocabulary`: guard, append the marker
and the model question, speak the question, set `awaitingFeatureInput`. -/
def getBritishVocabularyStep (s : AppState) : AppState :=
  if s.isLoading ∨ s.isListening ∨ s.isSpeaking ∨ s.awaitingFeatureInput ≠ none then
    { s with error := [] }
  else
    { speakMessageStep
        { s with
            error := [],
            conversation := s.conversation ++
              [Turn.mk Role.user (vocabMarkerText), Turn.mk Role.model (vocabAskText)] }
        vocabAskText with
      awaitingFeatureInput := some Feature.vocab }

/-- The synchronous effect of `rephraseSentence` (the rephrase analogue of
`getBritishVocabulary`). -/
def rephraseSentenceStep (s : AppState) : AppState :=
  if s.isLoading ∨ s.isListening ∨ s.isSpeaking ∨ s.awaitingFeatureInput ≠ none then
    { s with error := [] }
  else
    { speakMessageStep
        { s with
            error := [],
            conversation := s.conversation ++
              [Turn.mk Role.user (rephraseMarkerText), Turn.mk Role.model (rephraseAskText)] }
        rephraseAskText with
      awaitingFeatureInput := some Feature.rephrase }

/-- The synchronous effect of `startRolePlay`: guard, append the marker and
dispatch the fixed role-play instruction. -/
def startRolePlayStep (s : AppState) : AppState × Option Str :=
  if s.isLoading ∨ s.isListening ∨ s.isSpeaking ∨ s.awaitingFeatureInput ≠ none then
    ({ s with error := [] }, none)
  else
    ({ s with
        error := [],
        conversation := s.conversation ++ [Turn.mk Role.user (rolePlayMarkerText)],
        isLoading := true, apiActive := true }, some rolePlayPromptText)

/-- The synchronous effect of `startListening`: stop speech, and when no
session is active clear error and input, append the placeholder turn and
activate the recognition session. -/
def startListeningStep (s : AppState) : AppState :=
  let s0 := { s with isSpeaking := false }
  if s0.isListening then { s0 with error := recBusyText }
  else
    { s0 with
        error := [], message := [],
        conversation := s0.conversation ++ [Turn.mk Role.user (listeningText)],
        isListening := true, recActive := true }

/-- The synchronous effect of `clearConversation`: reset the log to the seeded
greeting, clear error, feature mode and input, stop speaking and listening
(the pending recognition session, if any, still resolves later). -/
def clearConversationStep (s : AppState) : AppState :=
  { s with
      conversation := [Turn.mk Role.model (greetingText)], error := [],
      awaitingFeatureInput := none, isSpeaking := false, isListening := false,
      message := [] }

/-- One part of a Gemini candidate content (`{ text }`). -/
structure GeminiPart where
  text : Str
deriving DecidableEq

/-- A Gemini candidate content (`{ parts }`, possibly absent pieces). -/
structure GeminiContent where
  parts : Option (List GeminiPart)
deriving DecidableEq

/-- A Gemini candidate (`{ content }`). -/
structure GeminiCandidate where
  content : Option GeminiContent
deriving DecidableEq

/-- A Gemini error payload (`{ message }`; the message may be absent). -/
structure GeminiError where
  message : Option Str
deriving DecidableEq

/-- A parsed Gemini response body; each field may be absent, matching the
truthiness checks of the source. -/
structure GeminiResult where
  candidates : Option (List GeminiCandidate)
  error : Option GeminiError
deriving DecidableEq

/-- `result.error.message || "An unknown API error occurred."`: a missing or
empty (falsy) message maps to the default. -/
def errorMessageOrDefault (m : Option Str) : Str :=
  match m with
  | some t => if t = [] then unknownApiErrorText else t
  | none => unknownApiErrorText

/-- The `else if (result.error)` arm and the initial fallback of
`sendPromptToGemini`. -/
def fallbackFor (r : GeminiResult) : Str :=
  match r.error with
  | some e => errorPreText ++ errorMessageOrDefault e.message
  | none => fallbackText

/-- The `aiResponseText` computation of `sendPromptToGemini`: the first part
of the first candidate when the whole chain of truthiness checks passes,
otherwise the error text or the fixed fallback apology. -/
def extractText (r : GeminiResult) : Str :=
  match r.candidates with
  | some (c :: _) =>
    match c.content with
    | some ct =>
      match ct.parts with
      | some (p :: _) => p.text
      | some [] => fallbackFor r
      | none => fallbackFor r
    | none => fallbackFor r
  | some [] => fallbackFor r
  | none => fallbackFor r

/-- Outcome of the `fetch`/`response.json()` pair: either a parsed body of any
shape, or a thrown error (transport failure, caught by the `catch` branch). -/
inductive ApiOutcome
  | resolved (r : GeminiResult)
  | failed
deriving DecidableEq

/-- What `sendPromptToGemini` does after the call settles: the model turn it
appends, whether it hands the text to `speakMessage`, and the final value of
the loading flag (the `finally` branch). -/
structure HandlerResult where
  appended : Turn
  speaks : Bool
  loadingAfter : Bool
deriving DecidableEq

/-- The response handling of `sendPromptToGemini`: a resolved body (of any
shape) appends the extracted text and speaks it; a thrown error appends the
fixed transport apology without speaking; `finally` clears loading. -/
def handleOutcome : ApiOutcome → HandlerResult
  | ApiOutcome.resolved r => ⟨Turn.mk Role.model (extractText r), true, false⟩
  | ApiOutcome.failed => ⟨Turn.mk Role.model (transportText), false, false⟩

/-- Terminal signal of one chunk's playback: the engine's `onend` or `onerror`. -/
inductive ChunkSignal
  | ended
  | errored
deriving DecidableEq

/-- Result of playing a chunk queue: the chunks actually submitted to the
engine, the final speaking flag, and whether an error was surfaced. -/
structure PlayResult where
  submitted : List Str
  speaking : Bool
  errored : Bool
deriving DecidableEq

/-- The `speakNext`/`onend`/`onerror` chain of `speakMessage`, driven by the
per-chunk terminal signals: `onend` advances to the next chunk (or clears
`speaking` after the last), `onerror` clears `speaking`, surfaces an error and
submits nothing further; a chunk whose signal is still pending leaves
`speaking` true. -/
def playQueue : List Str → List ChunkSignal → PlayResult
  | [], _ => ⟨[], false, false⟩
  | c :: _, [] => ⟨[c], true, false⟩
  | c :: cs, ChunkSignal.ended :: sigs =>
    let r := playQueue cs sigs
    ⟨c :: r.submitted, r.speaking, r.errored⟩
  | c :: _, ChunkSignal.errored :: _ => ⟨[c], false, true⟩

/-- The events of the component: the enabled UI triggers and the asynchronous
callbacks of recognition, synthesis and the API call. -/
inductive Ev
  | typeMsg (t : Str)
  | sendBtn
  | startListenBtn
  | recResult (t : Str)
  | recEnd
  | recError
  | apiSuccess (r : GeminiResult)
  | apiFailure
  | speakStart
  | speakDone
  | speakErr
  | stopSpeakBtn
  | vocabBtn
  | rephraseBtn
  | tipsBtn
  | rolePlayBtn
  | clearBtn

/-- One step of the event machine: `none` when the event cannot occur in the
given state (a disabled button, or a callback with no pending activity).
Button guards are the `disabled` predicates of the JSX; callback guards are
the corresponding pending-activity flags.  For `recResult`, `sendMessage` runs
during the `onresult` callback (without stopping the session): on rejection
the recognised text remains in the input field, on dispatch the field is
cleared by `sendMessage` itself. -/
def step (s : AppState) : Ev → Option AppState
  | Ev.typeMsg t =>
    if s.isLoading ∨ s.isListening ∨ s.isSpeaking then none
    else some { s with message := t }
  | Ev.sendBtn =>
    if trim s.message = [] ∨ s.isLoading ∨ s.isListening ∨ s.isSpeaking then none
    else some (sendMessageStep s s.message).1
  | Ev.startListenBtn =>
    if s.isListening ∨ s.isLoading ∨ s.isSpeaking ∨ s.awaitingFeatureInput ≠ none then none
    else some (startListeningStep s)
  | Ev.recResult t =>
    if s.recActive then
      some (match sendMessageStep s t with
        | (s2, none) => { s2 with message := t }
        | (s2, some _) => s2)
    else none
  | Ev.recEnd =>
    if s.recActive then
      some (if trim s.message = [] ∧ s.conversation.any (fun m => decide (m.text = listeningText)) then
        { s with
            isListening := false, recActive := false, error := noSpeechErrorText,
            conversation := s.conversation.filter (fun m => !(decide (m.text = listeningText))) }
      else { s with isListening := false, recActive := false })
    else none
  | Ev.recError =>
    if s.recActive then
      some { s with
          isListening := false, recActive := false, error := recErrorText,
          conversation := s.conversation.filter (fun m => !(decide (m.text = listeningText))) }
    else none
  | Ev.apiSuccess r =>
    if s.apiActive then
      some { speakMessageStep
          { s with conversation := s.conversation ++ [Turn.mk Role.model (extractText r)] }
          (extractText r) with
        isLoading := false, apiActive := false }
    else none
  | Ev.apiFailure =>
    if s.apiActive then
      some { s with
          error := netErrorText,
          conversation := s.conversation ++ [Turn.mk Role.model (transportText)],
          isLoading := false, apiActive := false }
    else none
  | Ev.speakStart =>
    if s.speakPending then
      some { s with speakPending := false, isSpeaking := true, error := [] }
    else none
  | Ev.speakDone => if s.isSpeaking then some { s with isSpeaking := false } else none
  | Ev.speakErr =>
    if s.isSpeaking then some { s with isSpeaking := false, error := synthErrorText } else none
  | Ev.stopSpeakBtn =>
    if s.isSpeaking = false ∨ s.isLoading then none else some { s with isSpeaking := false }
  | Ev.vocabBtn =>
    if s.isLoading ∨ s.isListening ∨ s.isSpeaking ∨ s.awaitingFeatureInput ≠ none then none
    else some (getBritishVocabularyStep s)
  | Ev.rephraseBtn =>
    if s.isLoading ∨ s.isListening ∨ s.isSpeaking ∨ s.awaitingFeatureInput ≠ none then none
    else some (rephraseSentenceStep s)
  | Ev.tipsBtn =>
    if s.isLoading ∨ s.isListening ∨ s.isSpeaking ∨ s.awaitingFeatureInput ≠ none ∨
        (s.conversation.filter (fun m =>
          decide (m.role = Role.user) && !(decide (m.text = listeningText)))).length = 0 then none
    else some (getPronunciationTipsStep s).1
  | Ev.rolePlayBtn =>
    if s.isLoading ∨ s.isListening ∨ s.isSpeaking ∨ s.awaitingFeatureInput ≠ none then none
    else some (startRolePlayStep s).1
  | Ev.clearBtn =>
    if s.isLoading ∨ s.isListening ∨ s.isSpeaking then none
    else some (clearConversationStep s)

/-- The mount state of the component: seeded greeting, everything else idle. -/
def initState : AppState :=
  { conversation := [Turn.mk Role.model (greetingText)], message := [], isListening := false,
    isSpeaking := false, isLoading := false, error := [], awaitingFeatureInput := none,
    recActive := false, apiActive := false, speakPending := false }

/-- Run a sequence of events from the mount state; `none` when some event in
the sequence cannot occur. -/
def run (es : List Ev) : Option AppState := es.foldlM step initState

/-- The transcript of the C1 failing trace. -/
def helloText : Str := "Hello".toList

/-- The C1 failing trace: the user starts listening, then the recognition
session delivers its final transcript (the `onresult` callback, which fires
before `onend`). -/
def bugTrace : List Ev := [Ev.startListenBtn, Ev.recResult helloText]

/-- Demo input for the C2 witness. -/
def c2Text : Str := "Hello there. This is a somewhat longer sentence. Yes.".toList

/-- Demo input for the C3 witness. -/
def c3Text : Str := "Good morning. How are you today?\nVery well thanks.".toList

/-- Demo input for the C4 witness. -/
def c4Text : Str := "I is going".toList

/-- Demo conversation for the C5 witness. -/
def c5Conv : List Turn :=
  [Turn.mk Role.model (greetingText), Turn.mk Role.user ("Good morning".toList)]

/-- Demo state for the C7 witness: loading, with an empty error slot. -/
def c7State : AppState := { initState with isLoading := true }

/-- Demo state for the C7 counterexample: idle, with a listening placeholder
present in the log. -/
def c7PlaceholderState : AppState :=
  { initState with conversation :=
      [Turn.mk Role.model (greetingText), Turn.mk Role.user (listeningText)] }

/-- Demo state for the C9 witness (a log with a genuine user turn). -/
def c9State : AppState :=
  { initState with conversation :=
      [Turn.mk Role.model (greetingText), Turn.mk Role.user ("Good morning".toList)] }

/-- Demo turn for the C10 witness: genuine model content whose text happens to
equal the placeholder sentinel. -/
def c10Turn : Turn := Turn.mk Role.model (listeningText)

/-- Demo state for the C10 witness: a log holding a listening placeholder. -/
def c10State : AppState :=
  { initState with
      conversation := [Turn.mk Role.model (greetingText), Turn.mk Role.user (listeningText)] }

theorem flat_append {α : Type} : ∀ (xs ys : List (List α)), flat (xs ++ ys) = flat xs ++ flat ys := by
  intro xs ys
  induction xs with
  | nil => rfl
  | cons x xs ih => simp [flat, ih]

theorem dw_cons_true (p : Char → Bool) (c : Char) (l : Str) (h : p c = true) :
    (c :: l).dropWhile p = l.dropWhile p := by
  simp [List.dropWhile_cons, h]

theorem dw_cons_false (p : Char → Bool) (c : Char) (l : Str) (h : p c = false) :
    (c :: l).dropWhile p = c :: l := by
  simp [List.dropWhile_cons, h]

theorem dw_length_le (p : Char → Bool) : ∀ l : Str, (l.dropWhile p).length ≤ l.length := by
  intro l
  induction l with
  | nil => simp
  | cons c t ih =>
    rw [List.dropWhile_cons]
    by_cases h : p c = true
    · simp only [h, if_pos]
      exact Nat.le_trans ih (Nat.le_succ _)
    · simp [h]

theorem dw_eq_self_of_length (p : Char → Bool) :
    ∀ l : Str, (l.dropWhile p).length = l.length → l.dropWhile p = l := by
  intro l
  induction l with
  | nil => intro _; rfl
  | cons c t _ =>
    intro h
    rw [List.dropWhile_cons] at h ⊢
    by_cases hc : p c = true
    · rw [if_pos hc] at h
      have hle := dw_length_le p t
      simp only [List.length_cons] at h
      exact absurd h (by omega)
    · simp [hc]

theorem dw_head_false (p : Char → Bool) :
    ∀ (l : Str) (c : Char) (m : Str), l.dropWhile p = c :: m → p c = false := by
  intro l
  induction l with
  | nil => intro c m h; simp at h
  | cons a t ih =>
    intro c m h
    rw [List.dropWhile_cons] at h
    by_cases ha : p a = true
    · rw [if_pos ha] at h
      exact ih c m h
    · rw [if_neg ha] at h
      cases h
      simpa using ha

theorem dw_idem (p : Char → Bool) : ∀ l : Str, (l.dropWhile p).dropWhile p = l.dropWhile p := by
  intro l
  rcases h : l.dropWhile p with _ | ⟨c, m⟩
  · rfl
  · exact dw_cons_false p c m (dw_head_false p l c m h)

theorem rtrim_decomp (l : Str) : l = rtrim l ++ (l.reverse.takeWhile jsSpace).reverse := by
  have h := List.takeWhile_append_dropWhile jsSpace l.reverse
  calc l = l.reverse.reverse := (List.reverse_reverse l).symm
  _ = (l.reverse.takeWhile jsSpace ++ l.reverse.dropWhile jsSpace).reverse := by rw [h]
  _ = rtrim l ++ (l.reverse.takeWhile jsSpace).reverse := by
        rw [List.reverse_append]; rfl

theorem rtrim_length_le (l : Str) : (rtrim l).length ≤ l.length := by
  unfold rtrim
  rw [List.length_reverse]
  have := dw_length_le jsSpace l.reverse
  simpa using this

theorem trim_eq_self_split (l : Str) (h : trim l = l) :
    l.dropWhile jsSpace = l ∧ l.reverse.dropWhile jsSpace = l.reverse := by
  have h1 : l.dropWhile jsSpace = l := by
    apply dw_eq_self_of_length
    have hle1 : (rtrim (l.dropWhile jsSpace)).length ≤ (l.dropWhile jsSpace).length :=
      rtrim_length_le _
    have hle2 : (l.dropWhile jsSpace).length ≤ l.length := dw_length_le jsSpace l
    have heq : (rtrim (l.dropWhile jsSpace)).length = l.length := by
      rw [show rtrim (l.dropWhile jsSpace) = trim l from rfl, h]
    omega
  have h2 : l.reverse.dropWhile jsSpace = l.reverse := by
    have hr : rtrim l = l := by
      have : trim l = rtrim l := by unfold trim; rw [h1]
      rw [← this, h]
    have : (l.reverse.dropWhile jsSpace).reverse = l := hr
    calc l.reverse.dropWhile jsSpace
        = (l.reverse.dropWhile jsSpace).reverse.reverse := (List.reverse_reverse _).symm
    _ = l.reverse := by rw [this]
  exact ⟨h1, h2⟩

theorem trim_eq_self_of (l : Str) (h1 : l.dropWhile jsSpace = l)
    (h2 : l.reverse.dropWhile jsSpace = l.reverse) : trim l = l := by
  unfold trim rtrim
  rw [h1, h2, List.reverse_reverse]

theorem rtrim_preserves_dw (l : Str) (h : l.dropWhile jsSpace = l) :
    (rtrim l).dropWhile jsSpace = rtrim l := by
  rcases hr : rtrim l with _ | ⟨c, m⟩
  · rfl
  · have hd := rtrim_decomp l
    rw [hr] at hd
    rw [List.cons_append] at hd
    have hc : jsSpace c = false := by
      rw [hd] at h
      exact dw_head_false jsSpace _ c _ h
    exact dw_cons_false jsSpace c m hc

theorem trim_idem (l : Str) : trim (trim l) = trim l := by
  have ha : (l.dropWhile jsSpace).dropWhile jsSpace = l.dropWhile jsSpace := dw_idem jsSpace l
  have h1 : (trim l).dropWhile jsSpace = trim l := rtrim_preserves_dw (l.dropWhile jsSpace) ha
  have h2 : (trim l).reverse.dropWhile jsSpace = (trim l).reverse := by
    have hre : (trim l).reverse = ((l.dropWhile jsSpace).reverse).dropWhile jsSpace := by
      unfold trim rtrim
      rw [List.reverse_reverse]
    rw [hre]
    exact dw_idem jsSpace _
  exact trim_eq_self_of (trim l) h1 h2

theorem trim_cons_space (c : Char) (l : Str) (h : jsSpace c = true) :
    trim (c :: l) = trim l := by
  unfold trim
  rw [dw_cons_true jsSpace c l h]

theorem head_not_space_of_trimmed (l : Str) (c : Char) (m : Str) (h : trim l = l)
    (hl : l = c :: m) : jsSpace c = false := by
  have h1 := (trim_eq_self_split l h).1
  rw [hl] at h1
  exact dw_head_false jsSpace _ c _ h1

theorem last_not_space_of_trimmed (l : Str) (c : Char) (m : Str) (h : trim l = l)
    (hr : l.reverse = c :: m) : jsSpace c = false := by
  have h2 := (trim_eq_self_split l h).2
  rw [hr] at h2
  exact dw_head_false jsSpace _ c _ h2

theorem trim_append_sep (x y : Str) (hx : trim x = x) (hxn : x ≠ [])
    (hy : trim y = y) (hyn : y ≠ []) : trim (x ++ ' ' :: y) = x ++ ' ' :: y := by
  obtain ⟨c, x', hxe⟩ := List.exists_cons_of_ne_nil hxn
  have hc : jsSpace c = false := head_not_space_of_trimmed x c x' hx hxe
  have hyr : y.reverse ≠ [] := by
    intro hcontra
    exact hyn (List.reverse_eq_nil_iff.mp hcontra)
  obtain ⟨d, y', hye⟩ := List.exists_cons_of_ne_nil hyr
  have hd : jsSpace d = false := last_not_space_of_trimmed y d y' hy hye
  apply trim_eq_self_of
  · rw [hxe, List.cons_append]
    exact dw_cons_false jsSpace c _ hc
  · have hrev : (x ++ ' ' :: y).reverse = d :: (y' ++ ' ' :: x.reverse) := by
      rw [List.reverse_append, List.reverse_cons, hye]
      simp
    rw [hrev]
    exact dw_cons_false jsSpace d _ hd

theorem dw_nil_of_all (p : Char → Bool) : ∀ l : Str, (∀ c ∈ l, p c = true) → l.dropWhile p = [] := by
  intro l
  induction l with
  | nil => intro _; rfl
  | cons c t ih =>
    intro h
    rw [dw_cons_true p c t (h c (List.mem_cons_self c t))]
    exact ih (fun x hx => h x (List.mem_cons_of_mem c hx))

theorem trim_nil_of_all (l : Str) (h : ∀ c ∈ l, jsSpace c = true) : trim l = [] := by
  unfold trim rtrim
  rw [dw_nil_of_all jsSpace l h]
  rfl

theorem exists_not_space_dw (p : Char → Bool) :
    ∀ l : Str, (∃ c ∈ l, p c = false) → ∃ c ∈ l.dropWhile p, p c = false := by
  intro l
  induction l with
  | nil => intro h; simp at h
  | cons a t ih =>
    intro h
    by_cases ha : p a = true
    · rw [dw_cons_true p a t ha]
      apply ih
      obtain ⟨c, hc, hcf⟩ := h
      rcases List.mem_cons.mp hc with hca | hct
      · subst hca; rw [ha] at hcf; cases hcf
      · exact ⟨c, hct, hcf⟩
    · rw [dw_cons_false p a t (by simpa using ha)]
      exact h

theorem all_of_trim_nil (l : Str) (h : trim l = []) : ∀ c ∈ l, jsSpace c = true := by
  intro c hc
  by_contra hns
  have hns' : jsSpace c = false := by simpa using hns
  have h1 : ∃ x ∈ l.dropWhile jsSpace, jsSpace x = false :=
    exists_not_space_dw jsSpace l ⟨c, hc, hns'⟩
  obtain ⟨x, hx, hxf⟩ := h1
  have h2 : ∃ x ∈ (l.dropWhile jsSpace).reverse, jsSpace x = false :=
    ⟨x, List.mem_reverse.mpr hx, hxf⟩
  have h3 : ∃ y ∈ ((l.dropWhile jsSpace).reverse).dropWhile jsSpace, jsSpace y = false :=
    exists_not_space_dw jsSpace _ h2
  obtain ⟨y, hy, _⟩ := h3
  have : y ∈ trim l := by
    unfold trim rtrim
    exact List.mem_reverse.mpr hy
  rw [h] at this
  simp at this

theorem takeWhile_all (p : Char → Bool) (l : Str) (c : Char) (h : c ∈ l.takeWhile p) :
    p c = true :=
  List.mem_takeWhile_imp h

theorem wordsAux_append_space (s : Char) (hs : jsSpace s = true) :
    ∀ (x cur y : Str), wordsAux (x ++ s :: y) cur = wordsAux x cur ++ wordsAux y [] := by
  intro x
  induction x with
  | nil =>
    intro cur y
    by_cases hc : cur = []
    · subst hc; simp [wordsAux, hs]
    · simp [wordsAux, hs, hc]
  | cons a t ih =>
    intro cur y
    rw [List.cons_append]
    by_cases ha : jsSpace a = true
    · by_cases hc : cur = []
      · subst hc
        simp only [wordsAux]
        simp [ha, ih [] y]
      · simp only [wordsAux]
        simp [ha, hc, ih [] y]
    · have ha' : jsSpace a = false := by simpa using ha
      simp only [wordsAux]
      simp [ha', ih (a :: cur) y]

theorem words_append_space (s : Char) (hs : jsSpace s = true) (x y : Str) :
    words (x ++ s :: y) = words x ++ words y :=
  wordsAux_append_space s hs x [] y

theorem wordsAux_all_space : ∀ l : Str, (∀ c ∈ l, jsSpace c = true) → wordsAux l [] = [] := by
  intro l
  induction l with
  | nil => intro _; rfl
  | cons c t ih =>
    intro h
    simp only [wordsAux, h c (List.mem_cons_self c t), if_true, if_pos rfl]
    exact ih (fun x hx => h x (List.mem_cons_of_mem c hx))

theorem words_all_space (l : Str) (h : ∀ c ∈ l, jsSpace c = true) : words l = [] :=
  wordsAux_all_space l h

theorem words_append_all_space (x t : Str) (h : ∀ c ∈ t, jsSpace c = true) :
    words (x ++ t) = words x := by
  induction t with
  | nil => simp
  | cons s ts _ =>
    have hs : jsSpace s = true := h s (List.mem_cons_self s ts)
    rw [words_append_space s hs x ts,
        words_all_space ts (fun c hc => h c (List.mem_cons_of_mem s hc))]
    simp

theorem words_prepend_all_space (t y : Str) (h : ∀ c ∈ t, jsSpace c = true) :
    words (t ++ y) = words y := by
  induction t with
  | nil => simp
  | cons s ts ih =>
    have hs : jsSpace s = true := h s (List.mem_cons_self s ts)
    have h1 : words (s :: (ts ++ y)) = words (ts ++ y) := by
      have := words_append_space s hs [] (ts ++ y)
      simpa [words, wordsAux] using this
    rw [List.cons_append, h1]
    exact ih (fun c hc => h c (List.mem_cons_of_mem s hc))

theorem words_cons_space (s : Char) (hs : jsSpace s = true) (y : Str) :
    words (s :: y) = words y := by
  have := words_append_space s hs [] y
  simpa [words, wordsAux] using this

theorem words_trim (l : Str) : words (trim l) = words l := by
  have h1 : words l = words (l.dropWhile jsSpace) := by
    conv_lhs => rw [← List.takeWhile_append_dropWhile jsSpace l]
    exact words_prepend_all_space _ _ (fun c hc => takeWhile_all jsSpace l c hc)
  have h2 : words (l.dropWhile jsSpace) = words (trim l) := by
    conv_lhs => rw [rtrim_decomp (l.dropWhile jsSpace)]
    apply words_append_all_space
    intro c hc
    exact takeWhile_all jsSpace _ c (List.mem_reverse.mp hc)
  rw [h1, h2]

theorem jsSpace_space : jsSpace ' ' = true := rfl

theorem jsSpace_newline : jsSpace '\n' = true := rfl

theorem splitAux_chars (l : Str) :
    ∀ (mode : SMode) (prev : Char) (cur : Str) (out : Str),
      out ∈ splitAux l mode prev cur → ∀ ch ∈ out, ch ∈ cur ∨ ch ∈ l := by
  induction l with
  | nil =>
    intro mode prev cur out hout ch hch
    cases mode with
    | piece =>
      simp only [splitAux, List.mem_singleton] at hout
      subst hout
      exact Or.inl (List.mem_reverse.mp hch)
    | sepA =>
      simp only [splitAux, List.mem_singleton] at hout
      subst hout
      simp at hch
    | sepB =>
      simp only [splitAux, List.mem_singleton] at hout
      subst hout
      simp at hch
  | cons c rest ih =>
    intro mode prev cur out hout ch hch
    cases mode with
    | piece =>
      simp only [splitAux] at hout
      split_ifs at hout with h1 h2
      · rcases List.mem_cons.mp hout with h | h
        · subst h
          exact Or.inl (List.mem_reverse.mp hch)
        · rcases ih SMode.sepA c [] out h ch hch with h' | h'
          · simp at h'
          · exact Or.inr (List.mem_cons_of_mem c h')
      · rcases List.mem_cons.mp hout with h | h
        · subst h
          exact Or.inl (List.mem_reverse.mp hch)
        · rcases ih SMode.sepB c [] out h ch hch with h' | h'
          · simp at h'
          · exact Or.inr (List.mem_cons_of_mem c h')
      · rcases ih SMode.piece c (c :: cur) out hout ch hch with h' | h'
        · rcases List.mem_cons.mp h' with h'' | h''
          · subst h''; exact Or.inr (List.mem_cons_self _ _)
          · exact Or.inl h''
        · exact Or.inr (List.mem_cons_of_mem c h')
    | sepA =>
      simp only [splitAux] at hout
      split_ifs at hout with h1
      · rcases ih SMode.sepA c cur out hout ch hch with h' | h'
        · exact Or.inl h'
        · exact Or.inr (List.mem_cons_of_mem c h')
      · rcases ih SMode.piece c [c] out hout ch hch with h' | h'
        · rcases List.mem_singleton.mp (by simpa using h') with h''
          subst h''; exact Or.inr (List.mem_cons_self _ _)
        · exact Or.inr (List.mem_cons_of_mem c h')
    | sepB =>
      simp only [splitAux] at hout
      split_ifs at hout with h1
      · rcases ih SMode.sepB c cur out hout ch hch with h' | h'
        · exact Or.inl h'
        · exact Or.inr (List.mem_cons_of_mem c h')
      · rcases ih SMode.piece c [c] out hout ch hch with h' | h'
        · rcases List.mem_singleton.mp (by simpa using h') with h''
          subst h''; exact Or.inr (List.mem_cons_self _ _)
        · exact Or.inr (List.mem_cons_of_mem c h')

theorem splitAux_words (l : Str) :
    ∀ (mode : SMode) (prev : Char) (cur : Str), (mode = SMode.piece ∨ cur = []) →
      flat ((splitAux l mode prev cur).map words) = words (cur.reverse ++ l) := by
  induction l with
  | nil =>
    intro mode prev cur hmc
    cases mode with
    | piece => simp [splitAux, flat, words]
    | sepA =>
      rcases hmc with h | h
      · cases h
      · subst h; simp [splitAux, flat, words, wordsAux]
    | sepB =>
      rcases hmc with h | h
      · cases h
      · subst h; simp [splitAux, flat, words, wordsAux]
  | cons c rest ih =>
    intro mode prev cur hmc
    cases mode with
    | piece =>
      simp only [splitAux]
      split_ifs with h1 h2
      · rw [List.map_cons]
        show words cur.reverse ++ flat ((splitAux rest SMode.sepA c []).map words) = _
        rw [ih SMode.sepA c [] (Or.inr rfl)]
        simp only [List.reverse_nil, List.nil_append]
        rw [words_append_space c h1.2 cur.reverse rest]
      · rw [List.map_cons]
        show words cur.reverse ++ flat ((splitAux rest SMode.sepB c []).map words) = _
        rw [ih SMode.sepB c [] (Or.inr rfl)]
        simp only [List.reverse_nil, List.nil_append]
        subst h2
        rw [words_append_space '\n' jsSpace_newline cur.reverse rest]
      · rw [ih SMode.piece c (c :: cur) (Or.inl rfl)]
        rw [List.reverse_cons, List.append_assoc]
        rfl
    | sepA =>
      have hc : cur = [] := by
        rcases hmc with h | h
        · cases h
        · exact h
      subst hc
      simp only [splitAux, List.reverse_nil, List.nil_append]
      split_ifs with h1
      · rw [ih SMode.sepA c [] (Or.inr rfl)]
        simp only [List.reverse_nil, List.nil_append]
        rw [words_cons_space c h1 rest]
      · rw [ih SMode.piece c [c] (Or.inl rfl)]
        rfl
    | sepB =>
      have hc : cur = [] := by
        rcases hmc with h | h
        · cases h
        · exact h
      subst hc
      simp only [splitAux, List.reverse_nil, List.nil_append]
      split_ifs with h1
      · rw [ih SMode.sepB c [] (Or.inr rfl)]
        simp only [List.reverse_nil, List.nil_append]
        subst h1
        rw [words_cons_space '\n' jsSpace_newline rest]
      · rw [ih SMode.piece c [c] (Or.inl rfl)]
        rfl

theorem flat_words_filter (pieces : List Str) :
    flat (((pieces.filter (fun s => 0 < (trim s).length)).map words)) =
      flat (pieces.map words) := by
  induction pieces with
  | nil => rfl
  | cons s ps ih =>
    by_cases h : 0 < (trim s).length
    · rw [List.filter_cons_of_pos (by simpa using h)]
      simp only [List.map_cons, flat]
      rw [ih]
    · have hnil : trim s = [] := by
        rw [← List.length_eq_zero]
        omega
      have hw : words s = [] := by
        rw [← words_trim s, hnil]
        rfl
      rw [List.filter_cons_of_neg (by simpa using h)]
      simp only [List.map_cons, flat]
      rw [ih, hw]
      rfl

theorem chunkLoop_words (maxLen : Nat) :
    ∀ (segs : List Str) (cur : Str) (acc : List Str),
      flat ((chunkLoop maxLen segs cur acc).map words) =
        flat (acc.map words) ++ words cur ++ flat (segs.map words) := by
  intro segs
  induction segs with
  | nil =>
    intro cur acc
    simp only [chunkLoop]
    by_cases h : trim cur = []
    · have hw : words cur = [] := by rw [← words_trim cur, h]; rfl
      rw [if_pos h, hw]
      simp [flat]
    · rw [if_neg h, List.map_append, flat_append]
      have hw : words (trim cur) = words cur := words_trim cur
      simp [flat, hw]
  | cons s rest ih =>
    intro cur acc
    simp only [chunkLoop]
    by_cases h0 : (trim s).length = 0
    · have hnil : trim s = [] := by rw [← List.length_eq_zero]; omega
      have hw : words s = [] := by rw [← words_trim s, hnil]; rfl
      rw [if_pos h0, ih cur acc]
      simp [flat, hw]
    · rw [if_neg h0]
      by_cases h1 : (trim (cur ++ ' ' :: trim s)).length ≤ maxLen
      · rw [if_pos h1]
        by_cases hc : cur = []
        · rw [if_pos hc, ih (trim s) acc]
          subst hc
          have hw : words (trim s) = words s := words_trim s
          simp only [words] at hw
          simp [flat, words, wordsAux, hw]
        · rw [if_neg hc, ih (cur ++ ' ' :: trim s) acc]
          rw [words_append_space ' ' jsSpace_space cur (trim s), words_trim s]
          simp [flat]
      · rw [if_neg h1]
        by_cases h2 : trim cur = []
        · rw [if_pos h2, ih (trim s) acc]
          have hwc : words cur = [] := by rw [← words_trim cur, h2]; rfl
          have hw : words (trim s) = words s := words_trim s
          simp [flat, hwc, hw]
        · rw [if_neg h2, ih (trim s) (acc ++ [trim cur])]
          simp [flat_append, flat, words_trim s, words_trim cur, List.append_assoc]

theorem chunkLoop_sound (maxLen : Nat) (S : List Str) :
    ∀ (segs : List Str) (cur : Str) (acc : List Str),
      trim cur = cur →
      (cur = [] ∨ cur.length ≤ maxLen ∨ ∃ s ∈ S, cur = trim s) →
      (∀ a ∈ acc, a ≠ [] ∧ trim a = a ∧ (a.length ≤ maxLen ∨ ∃ s ∈ S, a = trim s)) →
      (∀ s ∈ segs, s ∈ S) →
      ∀ c ∈ chunkLoop maxLen segs cur acc,
        c ≠ [] ∧ trim c = c ∧ (c.length ≤ maxLen ∨ ∃ s ∈ S, c = trim s) := by
  intro segs
  induction segs with
  | nil =>
    intro cur acc hct hcp hacc _ c hc
    simp only [chunkLoop] at hc
    by_cases h : trim cur = []
    · rw [if_pos h] at hc
      exact hacc c hc
    · rw [if_neg h] at hc
      rcases List.mem_append.mp hc with hm | hm
      · exact hacc c hm
      · have hcc : c = trim cur := List.mem_singleton.mp hm
        subst hcc
        rw [hct]
        have hcn : cur ≠ [] := by
          intro hx
          subst hx
          exact h rfl
        refine ⟨hcn, hct, ?_⟩
        rcases hcp with h' | h' | h'
        · exact absurd h' hcn
        · exact Or.inl h'
        · exact Or.inr h'
  | cons s rest ih =>
    intro cur acc hct hcp hacc hsub c hc
    simp only [chunkLoop] at hc
    have hsS : s ∈ S := hsub s (List.mem_cons_self s rest)
    have hrest : ∀ x ∈ rest, x ∈ S := fun x hx => hsub x (List.mem_cons_of_mem s hx)
    by_cases h0 : (trim s).length = 0
    · rw [if_pos h0] at hc
      exact ih cur acc hct hcp hacc hrest c hc
    · rw [if_neg h0] at hc
      have hsegne : trim s ≠ [] := by
        intro hx
        rw [hx] at h0
        exact h0 rfl
      have hsegt : trim (trim s) = trim s := trim_idem s
      by_cases h1 : (trim (cur ++ ' ' :: trim s)).length ≤ maxLen
      · rw [if_pos h1] at hc
        by_cases hcur : cur = []
        · rw [if_pos hcur] at hc
          subst hcur
          have hts : trim ([] ++ ' ' :: trim s) = trim s := by
            rw [List.nil_append, trim_cons_space ' ' (trim s) jsSpace_space, hsegt]
          rw [hts] at h1
          exact ih (trim s) acc hsegt (Or.inr (Or.inl h1)) hacc hrest c hc
        · rw [if_neg hcur] at hc
          have hts : trim (cur ++ ' ' :: trim s) = cur ++ ' ' :: trim s :=
            trim_append_sep cur (trim s) hct hcur hsegt hsegne
          rw [hts] at h1
          exact ih (cur ++ ' ' :: trim s) acc hts (Or.inr (Or.inl h1)) hacc hrest c hc
      · rw [if_neg h1] at hc
        by_cases h2 : trim cur = []
        · rw [if_pos h2] at hc
          exact ih (trim s) acc hsegt (Or.inr (Or.inr ⟨s, hsS, rfl⟩)) hacc hrest c hc
        · rw [if_neg h2] at hc
          have hcn : cur ≠ [] := by
            intro hx
            rw [hx] at h2
            exact h2 rfl
          have hacc' : ∀ a ∈ acc ++ [trim cur],
              a ≠ [] ∧ trim a = a ∧ (a.length ≤ maxLen ∨ ∃ x ∈ S, a = trim x) := by
            intro a ha
            rcases List.mem_append.mp ha with hm | hm
            · exact hacc a hm
            · have haa : a = trim cur := List.mem_singleton.mp hm
              subst haa
              rw [hct]
              refine ⟨hcn, hct, ?_⟩
              rcases hcp with h' | h' | h'
              · exact absurd h' hcn
              · exact Or.inl h'
              · exact Or.inr h'
          exact ih (trim s) (acc ++ [trim cur]) hsegt
            (Or.inr (Or.inr ⟨s, hsS, rfl⟩)) hacc' hrest c hc

theorem words_spaceJoin : ∀ cs : List Str, words (spaceJoin cs) = flat (cs.map words) := by
  intro cs
  induction cs with
  | nil => rfl
  | cons c cs ih =>
    cases cs with
    | nil => simp [spaceJoin, flat]
    | cons c2 cs2 =>
      show words (c ++ ' ' :: spaceJoin (c2 :: cs2)) = _
      rw [words_append_space ' ' jsSpace_space c (spaceJoin (c2 :: cs2)), ih]
      rfl

theorem segmentsRaw_nil_of_space (text : Str) (h : ∀ c ∈ text, jsSpace c = true) :
    segmentsRaw text = [] := by
  unfold segmentsRaw
  rw [List.filter_eq_nil_iff]
  intro a ha
  have hall : ∀ c ∈ a, jsSpace c = true := by
    intro c hc
    rcases splitAux_chars text SMode.piece ' ' [] a ha c hc with h' | h'
    · simp at h'
    · exact h c h'
  have hnil : trim a = [] := trim_nil_of_all a hall
  simp [hnil]

theorem speakMessageStep_fields (s : AppState) (t : Str) :
    (speakMessageStep s t).awaitingFeatureInput = s.awaitingFeatureInput ∧
    (speakMessageStep s t).isLoading = s.isLoading ∧
    (speakMessageStep s t).conversation = s.conversation ∧
    (speakMessageStep s t).message = s.message ∧
    (speakMessageStep s t).error = s.error := by
  unfold speakMessageStep
  by_cases h : (chunk t maxUtteranceLength).isEmpty = true
  · simp [h]
  · simp [h]

theorem sendMessage_reject (s : AppState) (t : Str) (h : trim t = [] ∨ s.isLoading = true) :
    (sendMessageStep s t).2 = none ∧
    (sendMessageStep s t).1.conversation =
      s.conversation.filter (fun m => !(decide (m.text = listeningText))) ∧
    (sendMessageStep s t).1.isLoading = s.isLoading ∧
    (sendMessageStep s t).1.isListening = s.isListening ∧
    (sendMessageStep s t).1.isSpeaking = s.isSpeaking ∧
    (sendMessageStep s t).1.awaitingFeatureInput = s.awaitingFeatureInput ∧
    (sendMessageStep s t).1.message = s.message ∧
    ((t = s.message ∧ trim t = []) → (sendMessageStep s t).1.error = emptyMsgErrorText) ∧
    (¬(t = s.message ∧ trim t = []) → (sendMessageStep s t).1.error = s.error) := by
  have hcond : trim t = [] ∨ s.isLoading = true := h
  simp only [sendMessageStep]
  rw [if_pos hcond]
  refine ⟨rfl, rfl, rfl, rfl, rfl, rfl, rfl, ?_, ?_⟩
  · intro hc
    simp only [if_pos hc]
  · intro hc
    simp only [if_neg hc]

theorem sendMessage_dispatch_vocab (s : AppState) (t : Str) (ht : trim t ≠ [])
    (hL : s.isLoading = false) (hF : s.awaitingFeatureInput = some Feature.vocab) :
    (sendMessageStep s t).2 = some (vocabPrompt (trim t)) ∧
    (sendMessageStep s t).1.awaitingFeatureInput = none := by
  have hcond : ¬(trim t = [] ∨ s.isLoading = true) := by
    simp [ht, hL]
  simp only [sendMessageStep]
  rw [if_neg hcond, hF]
  exact ⟨rfl, rfl⟩

theorem sendMessage_dispatch_rephrase (s : AppState) (t : Str) (ht : trim t ≠ [])
    (hL : s.isLoading = false) (hF : s.awaitingFeatureInput = some Feature.rephrase) :
    (sendMessageStep s t).2 = some (rephrasePrompt (trim t)) ∧
    (sendMessageStep s t).1.awaitingFeatureInput = none := by
  have hcond : ¬(trim t = [] ∨ s.isLoading = true) := by
    simp [ht, hL]
  simp only [sendMessageStep]
  rw [if_neg hcond, hF]
  exact ⟨rfl, rfl⟩

theorem getBritishVocabularyStep_spec (s : AppState)
    (h : ¬(s.isLoading ∨ s.isListening ∨ s.isSpeaking ∨ s.awaitingFeatureInput ≠ none)) :
    (getBritishVocabularyStep s).awaitingFeatureInput = some Feature.vocab ∧
    (getBritishVocabularyStep s).isLoading = s.isLoading := by
  unfold getBritishVocabularyStep
  rw [if_neg h]
  exact ⟨rfl, (speakMessageStep_fields _ _).2.1⟩

theorem rephraseSentenceStep_spec (s : AppState)
    (h : ¬(s.isLoading ∨ s.isListening ∨ s.isSpeaking ∨ s.awaitingFeatureInput ≠ none)) :
    (rephraseSentenceStep s).awaitingFeatureInput = some Feature.rephrase ∧
    (rephraseSentenceStep s).isLoading = s.isLoading := by
  unfold rephraseSentenceStep
  rw [if_neg h]
  exact ⟨rfl, (speakMessageStep_fields _ _).2.1⟩

theorem sparkle_prefix_vocab : sparkleText.isPrefixOf vocabMarkerText = true := by decide

theorem sparkle_prefix_rephrase : sparkleText.isPrefixOf rephraseMarkerText = true := by decide

theorem sparkle_prefix_rolePlay : sparkleText.isPrefixOf rolePlayMarkerText = true := by decide

theorem sparkle_prefix_tips (q : Str) : sparkleText.isPrefixOf (tipsMarker q) = true := rfl

/-- Claim C2: for every input text and every `maxLen ≥ 1`, the chunker returns
a sequence in which each element is non-empty, trimmed, and of length at most
`maxLen` unless it is the trim of a single atomic sentence segment of the
split (emitted whole, un-split, as its own element); empty or whitespace-only
input yields the empty sequence. -/
theorem chunk_postconditions (text : Str) (maxLen : Nat) (_hml : 1 ≤ maxLen) :
    (∀ c ∈ chunk text maxLen,
        c ≠ [] ∧ trim c = c ∧ (c.length ≤ maxLen ∨ ∃ s ∈ segmentsRaw text, c = trim s)) ∧
    (trim text = [] → chunk text maxLen = []) := by
  constructor
  · intro c hc
    exact chunkLoop_sound maxLen (segmentsRaw text) (segmentsRaw text) [] [] rfl
      (Or.inl rfl) (by intro a ha; simp at ha) (fun s hs => hs) c hc
  · intro h
    have hall := all_of_trim_nil text h
    have hseg : segmentsRaw text = [] := segmentsRaw_nil_of_space text hall
    unfold chunk
    rw [hseg]
    rfl

/-- Witness for C2 at a concrete text and bound. -/
theorem chunk_postconditions_witness :
    1 ≤ 12 ∧
    ((∀ c ∈ chunk c2Text 12,
        c ≠ [] ∧ trim c = c ∧ (c.length ≤ 12 ∨ ∃ s ∈ segmentsRaw c2Text, c = trim s)) ∧
     (trim c2Text = [] → chunk c2Text 12 = [])) :=
  ⟨by decide, chunk_postconditions c2Text 12 (by decide)⟩

/-- Claim C3: for every input text and every `maxLen ≥ 1`, concatenating the
chunks with single spaces reinserted reproduces the original word
sequence of the input. -/
theorem chunk_words_roundtrip (text : Str) (maxLen : Nat) (_hml : 1 ≤ maxLen) :
    words (spaceJoin (chunk text maxLen)) = words text := by
  rw [words_spaceJoin]
  unfold chunk
  rw [chunkLoop_words maxLen (segmentsRaw text) [] []]
  unfold segmentsRaw
  rw [flat_words_filter]
  rw [splitAux_words text SMode.piece ' ' [] (Or.inl rfl)]
  simp [flat, words, wordsAux]

/-- Witness for C3 at a concrete text and bound. -/
theorem chunk_words_roundtrip_witness :
    1 ≤ 18 ∧ words (spaceJoin (chunk c3Text 18)) = words c3Text :=
  ⟨by decide, chunk_words_roundtrip c3Text 18 (by decide)⟩

/-- Claim C1 (code bug evidence): after `startListening` and the recognition
`onresult` callback (which runs `sendMessage` and therefore
`setIsLoading(true)` without stopping the session), the machine reaches a
state in which `isListening` and `isLoading` are both true — the mutual
exclusion of {listening, speaking, loading} is violated until `onend` fires. -/
theorem listening_loading_overlap :
    (run bugTrace).map (fun s => (s.isListening, s.isLoading)) = some (true, true) := by
  decide

/-- Claim C4: after initiating the vocabulary feature in an idle state, the
next successful `sendMessage` resets the feature mode to `none` and dispatches
the submitted (trimmed) text embedded in the vocabulary-instruction template;
after initiating the rephrase feature, the same submission dispatches the
rephrase-instruction template instead. -/
theorem featureMode_consumption (s : AppState) (t : Str)
    (hL : s.isLoading = false) (hLs : s.isListening = false) (hSp : s.isSpeaking = false)
    (hF : s.awaitingFeatureInput = none) (ht : trim t ≠ []) :
    ((getBritishVocabularyStep s).awaitingFeatureInput = some Feature.vocab ∧
     (sendMessageStep (getBritishVocabularyStep s) t).1.awaitingFeatureInput = none ∧
     (sendMessageStep (getBritishVocabularyStep s) t).2 = some (vocabPrompt (trim t))) ∧
    ((rephraseSentenceStep s).awaitingFeatureInput = some Feature.rephrase ∧
     (sendMessageStep (rephraseSentenceStep s) t).1.awaitingFeatureInput = none ∧
     (sendMessageStep (rephraseSentenceStep s) t).2 = some (rephrasePrompt (trim t))) := by
  have hguard : ¬(s.isLoading ∨ s.isListening ∨ s.isSpeaking ∨ s.awaitingFeatureInput ≠ none) := by
    simp [hL, hLs, hSp, hF]
  have hv := getBritishVocabularyStep_spec s hguard
  have hr := rephraseSentenceStep_spec s hguard
  have hv2 := sendMessage_dispatch_vocab (getBritishVocabularyStep s) t ht
    (hv.2.trans hL) hv.1
  have hr2 := sendMessage_dispatch_rephrase (rephraseSentenceStep s) t ht
    (hr.2.trans hL) hr.1
  exact ⟨⟨hv.1, hv2.2, hv2.1⟩, ⟨hr.1, hr2.2, hr2.1⟩⟩

/-- Witness for C4 at the mount state and the text "I is going". -/
theorem featureMode_consumption_witness :
    (sendMessageStep (getBritishVocabularyStep initState) c4Text).2 =
      some (vocabPrompt (trim c4Text)) ∧
    (sendMessageStep (rephraseSentenceStep initState) c4Text).2 =
      some (rephrasePrompt (trim c4Text)) :=
  ⟨((featureMode_consumption initState c4Text rfl rfl rfl rfl (by decide)).1).2.2,
   ((featureMode_consumption initState c4Text rfl rfl rfl rfl (by decide)).2).2.2⟩

/-- Claim C5: for every conversation log, the submission snapshot never
contains a turn whose text equals the transient listening placeholder, any of
the feature-initiation markers (vocabulary, rephrase, role-play, or the
pronunciation-tips marker for any quoted text), or either of the two
feature-acknowledgement placeholders. -/
theorem submission_snapshot_marker_free (conv : List Turn) (t : Turn)
    (h : t ∈ filteredConversation conv) :
    t.text ≠ listeningText ∧ t.text ≠ vocabMarkerText ∧ t.text ≠ rephraseMarkerText ∧
    t.text ≠ rolePlayMarkerText ∧ (∀ q : Str, t.text ≠ tipsMarker q) ∧
    t.text ≠ ackVocabText ∧ t.text ≠ ackRephraseText := by
  have hm : isMarkerFree t = true := (List.mem_filter.mp h).2
  unfold isMarkerFree at hm
  simp only [Bool.and_eq_true, Bool.not_eq_true', decide_eq_false_iff_not] at hm
  obtain ⟨⟨⟨h1, h2⟩, h3⟩, h4⟩ := hm
  refine ⟨h1, ?_, ?_, ?_, ?_, h3, h4⟩
  · intro he
    rw [he, sparkle_prefix_vocab] at h2
    cases h2
  · intro he
    rw [he, sparkle_prefix_rephrase] at h2
    cases h2
  · intro he
    rw [he, sparkle_prefix_rolePlay] at h2
    cases h2
  · intro q he
    rw [he, sparkle_prefix_tips q] at h2
    cases h2

/-- Witness for C5 at a concrete log and member. -/
theorem submission_snapshot_marker_free_witness :
    (Turn.mk Role.user ("Good morning".toList)).text ≠ listeningText ∧
    (∀ q : Str, (Turn.mk Role.user ("Good morning".toList)).text ≠ tipsMarker q) := by
  have h := submission_snapshot_marker_free c5Conv
    (Turn.mk Role.user ("Good morning".toList)) (by decide)
  exact ⟨h.1, h.2.2.2.2.1⟩

/-- Counterexample to claim C6 as stated: a malformed body (no candidates, no
error field) produces the fixed fallback apology, but the handler still hands
that text to speech output — contradicting "does not invoke speech output on
failure". -/
theorem malformed_body_spoken :
    (handleOutcome (ApiOutcome.resolved (GeminiResult.mk none none))).speaks = true ∧
    (handleOutcome (ApiOutcome.resolved (GeminiResult.mk none none))).appended.text =
      fallbackText :=
  ⟨rfl, rfl⟩

/-- Claim C6 (amended): every API outcome appends a model turn and clears the
loading flag; a thrown (transport) failure appends the fixed transport apology
and skips speech output, while a resolved body of any shape — including a
malformed one, which maps to the fixed fallback apology — is handed to speech
output like a normal reply. -/
theorem api_failure_semantics (o : ApiOutcome) :
    (handleOutcome o).loadingAfter = false ∧
    (handleOutcome o).appended.role = Role.model ∧
    (o = ApiOutcome.failed →
      (handleOutcome o).appended.text = transportText ∧ (handleOutcome o).speaks = false) ∧
    (∀ r, o = ApiOutcome.resolved r → (handleOutcome o).speaks = true ∧
      (r.candidates = none → r.error = none →
        (handleOutcome o).appended.text = fallbackText)) := by
  cases o with
  | failed =>
    refine ⟨rfl, rfl, fun _ => ⟨rfl, rfl⟩, ?_⟩
    intro r hr
    cases hr
  | resolved r =>
    refine ⟨rfl, rfl, ?_, ?_⟩
    · intro hr
      cases hr
    · intro r' hr
      cases hr
      refine ⟨rfl, ?_⟩
      intro hc he
      show extractText r = fallbackText
      unfold extractText fallbackFor
      rw [hc, he]

/-- Witness for C6 at the transport-failure outcome. -/
theorem api_failure_semantics_witness :
    (handleOutcome ApiOutcome.failed).appended.text = transportText ∧
    (handleOutcome ApiOutcome.failed).speaks = false :=
  ((api_failure_semantics ApiOutcome.failed).2.2.1) rfl

/-- Counterexample to claim C7 as stated: an empty submission on a log holding
a listening placeholder is rejected yet changes the ConversationStore (the
placeholder is deleted before validation), and a rejection while loading with
non-empty text surfaces no error at all. -/
theorem empty_submission_state_change :
    ((sendMessageStep c7PlaceholderState []).2 = none ∧
     (sendMessageStep c7PlaceholderState []).1.conversation ≠
       c7PlaceholderState.conversation) ∧
    ((sendMessageStep c7State ("hi".toList)).2 = none ∧
     (sendMessageStep c7State ("hi".toList)).1.error = c7State.error) := by
  decide

/-- Claim C7 (amended): a submission with empty or whitespace-only text, or
while already loading, dispatches no API call, appends no user turn, and
leaves the state unchanged except that every `Listening...` placeholder turn
is deleted from the log (the deletion precedes validation); the advisory
error is surfaced exactly when the rejected text equals the current input
field value and is empty — in particular a loading-rejection of non-empty
text is silent. -/
theorem empty_submission_rejection (s : AppState) (t : Str)
    (h : trim t = [] ∨ s.isLoading = true) :
    (sendMessageStep s t).2 = none ∧
    (sendMessageStep s t).1.conversation =
      s.conversation.filter (fun m => !(decide (m.text = listeningText))) ∧
    (sendMessageStep s t).1.isLoading = s.isLoading ∧
    (sendMessageStep s t).1.isListening = s.isListening ∧
    (sendMessageStep s t).1.isSpeaking = s.isSpeaking ∧
    (sendMessageStep s t).1.awaitingFeatureInput = s.awaitingFeatureInput ∧
    ((t = s.message ∧ trim t = []) → (sendMessageStep s t).1.error = emptyMsgErrorText) ∧
    (¬(t = s.message ∧ trim t = []) → (sendMessageStep s t).1.error = s.error) := by
  have h' := sendMessage_reject s t h
  exact ⟨h'.1, h'.2.1, h'.2.2.1, h'.2.2.2.1, h'.2.2.2.2.1, h'.2.2.2.2.2.1,
    h'.2.2.2.2.2.2.2.1, h'.2.2.2.2.2.2.2.2⟩

/-- Witness for C7 at a concrete loading state. -/
theorem empty_submission_rejection_witness :
    (sendMessageStep c7State ("hi".toList)).2 = none ∧
    (sendMessageStep c7State ("hi".toList)).1.error = c7State.error :=
  ⟨(empty_submission_rejection c7State ("hi".toList) (Or.inr rfl)).1,
   (empty_submission_rejection c7State ("hi".toList) (Or.inr rfl)).2.2.2.2.2.2.2
     (by decide)⟩

/-- Claim C8: a synthesis error on any chunk aborts the remaining chunk queue
(no further chunk is submitted to the engine, whatever signals follow), sets
the speaking flag to false, and surfaces an error; playback is never retried
— the submitted chunks are exactly the prefix up to and including the failed
one. -/
theorem synthesis_error_aborts :
    ∀ (done : List Str) (c : Str) (rest : List Str) (sigs : List ChunkSignal),
      playQueue (done ++ c :: rest)
          (List.replicate done.length ChunkSignal.ended ++ ChunkSignal.errored :: sigs) =
        ⟨done ++ [c], false, true⟩ := by
  intro done
  induction done with
  | nil => intro c rest sigs; rfl
  | cons d ds ih =>
    intro c rest sigs
    simp only [List.cons_append, List.length_cons, List.replicate_succ]
    show playQueue (d :: (ds ++ c :: rest))
        (ChunkSignal.ended :: (List.replicate ds.length ChunkSignal.ended ++ ChunkSignal.errored :: sigs)) = _
    simp only [playQueue]
    rw [ih c rest sigs]

/-- Claim C9: in an idle state, `getPronunciationTips` with no prior genuine
user turn surfaces the advisory error and appends no marker; with a last
genuine user turn `u` it appends the marker quoting `u` and dispatches the
tips-instruction prompt wrapping the quoted text, leaving the feature mode
untouched and entering loading. -/
theorem pronunciation_tips_spec (s : AppState)
    (hL : s.isLoading = false) (hLs : s.isListening = false) (hSp : s.isSpeaking = false)
    (hF : s.awaitingFeatureInput = none) :
    ((s.conversation.reverse.find? isRealUserTurn = none →
        (getPronunciationTipsStep s).2 = none ∧
        (getPronunciationTipsStep s).1.conversation = s.conversation ∧
        (getPronunciationTipsStep s).1.error = tipsNeedErrorText) ∧
     (∀ u, s.conversation.reverse.find? isRealUserTurn = some u →
        (getPronunciationTipsStep s).2 = some (tipsPrompt u.text) ∧
        (getPronunciationTipsStep s).1.conversation =
          s.conversation ++ [Turn.mk Role.user (tipsMarker u.text)] ∧
        (getPronunciationTipsStep s).1.awaitingFeatureInput = s.awaitingFeatureInput ∧
        (getPronunciationTipsStep s).1.isLoading = true)) := by
  have hguard : ¬(s.isLoading ∨ s.isListening ∨ s.isSpeaking ∨ s.awaitingFeatureInput ≠ none) := by
    simp [hL, hLs, hSp, hF]
  constructor
  · intro hnone
    unfold getPronunciationTipsStep
    rw [if_neg hguard, hnone]
    exact ⟨rfl, rfl, rfl⟩
  · intro u hu
    unfold getPronunciationTipsStep
    rw [if_neg hguard, hu]
    exact ⟨rfl, rfl, rfl, rfl⟩

/-- Witness for C9: the rejection branch at the mount state (seeded greeting
only) and the dispatch branch at a log with a genuine user turn. -/
theorem pronunciation_tips_spec_witness :
    ((getPronunciationTipsStep initState).2 = none ∧
     (getPronunciationTipsStep initState).1.conversation = initState.conversation ∧
     (getPronunciationTipsStep initState).1.error = tipsNeedErrorText) ∧
    ((getPronunciationTipsStep c9State).2 =
        some (tipsPrompt ("Good morning".toList)) ∧
     (getPronunciationTipsStep c9State).1.conversation =
        c9State.conversation ++
          [Turn.mk Role.user (tipsMarker ("Good morning".toList))]) := by
  have ha := (pronunciation_tips_spec initState rfl rfl rfl rfl).1 (by decide)
  have hb := (pronunciation_tips_spec c9State rfl rfl rfl rfl).2
    (Turn.mk Role.user ("Good morning".toList)) (by decide)
  exact ⟨ha, hb.1, hb.2.1⟩

/-- Claim C10: marker detection is by literal text, not by a tag — every turn
whose text is exactly the listening placeholder, begins with the sparkle
character, or equals one of the two feature-acknowledgement strings is
excluded from the submission snapshot regardless of its role; and
`sendMessage` deletes every `Listening...` turn from the log before
validating its input, even when the submission is rejected. -/
theorem sentinel_text_coupling :
    (∀ (conv : List Turn) (t : Turn),
        (t.text = listeningText ∨ sparkleText.isPrefixOf t.text = true ∨
         t.text = ackVocabText ∨ t.text = ackRephraseText) →
        t ∉ filteredConversation conv) ∧
    (∀ (s : AppState) (t : Str), trim t = [] ∨ s.isLoading = true →
        (sendMessageStep s t).2 = none ∧
        (sendMessageStep s t).1.conversation =
          s.conversation.filter (fun m => !(decide (m.text = listeningText)))) := by
  constructor
  · intro conv t ht hmem
    have hm : isMarkerFree t = true := (List.mem_filter.mp hmem).2
    unfold isMarkerFree at hm
    simp only [Bool.and_eq_true, Bool.not_eq_true', decide_eq_false_iff_not] at hm
    obtain ⟨⟨⟨h1, h2⟩, h3⟩, h4⟩ := hm
    rcases ht with h | h | h | h
    · exact h1 h
    · rw [h2] at h
      cases h
    · exact h3 h
    · exact h4 h
  · intro s t h
    exact ⟨(sendMessage_reject s t h).1, (sendMessage_reject s t h).2.1⟩

/-- Witness for C10: a genuine model turn whose text equals the placeholder is
excluded from the snapshot, and a rejected empty submission still deletes the
placeholder turns. -/
theorem sentinel_text_coupling_witness :
    c10Turn ∉ filteredConversation [c10Turn] ∧
    (sendMessageStep c10State []).1.conversation =
      c10State.conversation.filter (fun m => !(decide (m.text = listeningText))) :=
  ⟨sentinel_text_coupling.1 [c10Turn] c10Turn (Or.inl rfl),
   (sentinel_text_coupling.2 c10State [] (Or.inl rfl)).2⟩

end AccentCoach
